import Mathlib

/-!
Verification of the rexer reconciliation and source-fetch subsystem.

The definitions below are a shallow embedding, translated from the Rust
sources: `src/extension.rs` (data model), `src/commands/install.rs`
(reconciler: diff, install/update run), `src/commands/update.rs`,
`src/commands/state.rs` (state display), `src/config.rs` (state store),
and `src/git.rs` (fetch backend, modelled over an explicit repository
state).  Effects (filesystem, git network operations, external hooks)
are made explicit: fallible external outcomes are supplied by an
environment of oracles, and the filesystem is explicit state threaded
through the operations.
-/

set_option maxHeartbeats 1000000

namespace Rexer

/-! ## Data model (src/extension.rs) -/

/-- Field set of `struct Git` in src/extension.rs. -/
structure Git where
  url : String
  branch : Option String
  tag : Option String
  commit : Option String
deriving DecidableEq, Repr

/-- Field set of `struct GitHub` in src/extension.rs. -/
structure GitHub where
  repo : String
  branch : Option String
  tag : Option String
  commit : Option String
deriving DecidableEq, Repr

/-- `GitHub::url` in src/extension.rs: canonical expansion of the
shorthand `owner/name` to `https://github.com/owner/name.git`. -/
def GitHub.url (g : GitHub) : String :=
  "https://github.com/" ++ g.repo ++ ".git"

/-- `enum Source` in src/extension.rs. -/
inductive Source where
  | git : Git → Source
  | github : GitHub → Source
deriving DecidableEq, Repr

/-- Modelled from the spec: the accessor `Source::reference()` used by
src/git.rs is not present in the src tree (only its callers are).  Per
spec section 3, `reference` is the single optional branch/tag/commit
string, with exactly one of the three fields set at a time; its absence
means all three fields are `None`. -/
def Source.reference : Source → Option String
  | .git g => g.branch <|> g.tag <|> g.commit
  | .github h => h.branch <|> h.tag <|> h.commit

/-- `enum ExtensionType` in src/extension.rs. -/
inductive ExtensionType where
  | plugin : ExtensionType
  | theme : ExtensionType
deriving DecidableEq, Repr

/-- `struct Extension` in src/extension.rs. -/
structure Extension where
  name : String
  source : Source
deriving DecidableEq, Repr

/-- `struct ExtensionsConfig` in src/extension.rs. -/
structure ExtensionsConfig where
  plugins : List Extension
  themes : List Extension
deriving DecidableEq, Repr

/-- `ExtensionsConfig::all_extensions` in src/extension.rs: plugins
(tagged Plugin) chained with themes (tagged Theme). -/
def ExtensionsConfig.all_extensions (c : ExtensionsConfig) : List (Extension × ExtensionType) :=
  c.plugins.map (fun e => (e, ExtensionType.plugin)) ++
    c.themes.map (fun e => (e, ExtensionType.theme))

/-- `struct LockedExtension` in src/extension.rs. -/
structure LockedExtension where
  name : String
  extension_type : ExtensionType
  source : Source
  commit_hash : Option String
  installed_at : String
deriving DecidableEq, Repr

/-- `struct LockFile` in src/extension.rs. -/
structure LockFile where
  extensions : List LockedExtension
deriving DecidableEq, Repr

/-! ## Reconciler diff (src/commands/install.rs) -/

/-- `sources_equal` in src/commands/install.rs: componentwise equality
within the same variant; different source variants are never equal. -/
def sources_equal (source1 source2 : Source) : Bool :=
  match source1, source2 with
  | .git g1, .git g2 =>
      g1.url == g2.url && g1.branch == g2.branch && g1.tag == g2.tag && g1.commit == g2.commit
  | .github h1, .github h2 =>
      h1.repo == h2.repo && h1.branch == h2.branch && h1.tag == h2.tag && h1.commit == h2.commit
  | _, _ => false

/-- `struct InstallDiff` in src/commands/install.rs. -/
structure InstallDiff where
  added : List (Extension × ExtensionType)
  removed : List LockedExtension
  source_changed : List (Extension × ExtensionType × LockedExtension)
deriving DecidableEq, Repr

/-- `calculate_diff` in src/commands/install.rs.  The Rust code loops
over `all_extensions`, looking each name up in the lock file with
`iter().find(..)` (first match); an absent name is added, a present name
with unequal source is source-changed, and lock entries whose name does
not occur in the config are removed.  The loop accumulations are
rendered as filter/filterMap over the same traversal order. -/
def calculate_diff (cfg : ExtensionsConfig) (lock : LockFile) : InstallDiff :=
  { added := cfg.all_extensions.filter
      (fun p => (lock.extensions.find? (fun le => le.name == p.1.name)).isNone)
    removed := lock.extensions.filter
      (fun le => ! cfg.all_extensions.any (fun p => p.1.name == le.name))
    source_changed := cfg.all_extensions.filterMap
      (fun p =>
        match lock.extensions.find? (fun le => le.name == p.1.name) with
        | some le =>
            if sources_equal p.1.source le.source then none
            else some (p.1, p.2, le)
        | none => none) }

/-- The carry loop of `update_installation` (src/commands/install.rs
lines 101-113): lock entries whose name matches neither a removed entry
nor the old entry of a source-changed pair are carried verbatim. -/
def unchanged_extensions (cfg : ExtensionsConfig) (lock : LockFile) : List LockedExtension :=
  let diff := calculate_diff cfg lock
  lock.extensions.filter (fun le =>
    ! diff.removed.any (fun r => r.name == le.name) &&
    ! diff.source_changed.any (fun t => t.2.2.name == le.name))

/-- Names of the desired set, in traversal order. -/
def desired_names (cfg : ExtensionsConfig) : List String :=
  cfg.all_extensions.map (fun p => p.1.name)

/-- Names of the observed (locked) record. -/
def observed_names (lock : LockFile) : List String :=
  lock.extensions.map (fun le => le.name)

/-- Names of the computed added category. -/
def added_names (cfg : ExtensionsConfig) (lock : LockFile) : List String :=
  (calculate_diff cfg lock).added.map (fun p => p.1.name)

/-- Names of the computed removed category. -/
def removed_names (cfg : ExtensionsConfig) (lock : LockFile) : List String :=
  (calculate_diff cfg lock).removed.map (fun le => le.name)

/-- Names of the computed source-changed category (by the old locked
entry, as the carry loop tests them). -/
def source_changed_names (cfg : ExtensionsConfig) (lock : LockFile) : List String :=
  (calculate_diff cfg lock).source_changed.map (fun t => t.2.2.name)

/-- Names of the carried (unchanged) entries. -/
def unchanged_names (cfg : ExtensionsConfig) (lock : LockFile) : List String :=
  (unchanged_extensions cfg lock).map (fun le => le.name)

/-! ## State store (src/config.rs)

The filesystem is modelled explicitly: a path is its list of components
and the file store is an association list from paths to contents. -/

/-- A filesystem path, as its list of components. -/
abbrev PathC := List String

/-- The file store: paths mapped to file contents. -/
abbrev FileStore := List (PathC × String)

/-- Read a file: the content at the first entry for the path. -/
def readFile (fs : FileStore) (p : PathC) : Option String :=
  (fs.find? (fun e => e.1 == p)).map (fun e => e.2)

/-- Write (create or overwrite) a file. -/
def writeFile (fs : FileStore) (p : PathC) (c : String) : FileStore :=
  (p, c) :: fs.filter (fun e => e.1 != p)

/-- `std::fs::rename`: move `src` over `dst`, replacing `dst`. -/
def renameFile (fs : FileStore) (src dst : PathC) : Except String FileStore :=
  match readFile fs src with
  | some c => .ok (writeFile (fs.filter (fun e => e.1 != src)) dst c)
  | none => .error "rename failed"

/-- Index of the last occurrence of a character in a list. -/
def lastIdxOf (c : Char) : List Char → Option Nat
  | [] => none
  | x :: xs =>
    match lastIdxOf c xs with
    | some i => some (i + 1)
    | none => if x == c then some 0 else none

/-- Rust `Path::with_extension` applied to a file name: drop the current
extension (the part after the last dot, unless that dot is the leading
character) and append `.ext`. -/
def withExtensionName (name ext : String) : String :=
  let cs := name.toList
  let stem :=
    match lastIdxOf '.' cs with
    | some i => if i == 0 then cs else cs.take i
    | none => cs
  String.mk (stem ++ ('.' :: ext.toList))

/-- `LOCK_FILE` constant in src/config.rs. -/
def LOCK_FILE : String := ".extensions.lock"

/-- `struct Config` in src/config.rs.  Only the resolved root is kept;
the command-prefix option plays no role in the claims (it is only
prepended to external process invocations). -/
structure Config where
  redmine_root : PathC
deriving DecidableEq, Repr

/-- `Config::lock_file_path`. -/
def Config.lock_file_path (c : Config) : PathC :=
  c.redmine_root ++ [LOCK_FILE]

/-- The temporary path `path.with_extension("lock.tmp")` computed inside
`Config::save_lock_file`: `with_extension` rewrites only the final path
component. -/
def Config.temp_lock_path (c : Config) : PathC :=
  c.redmine_root ++ [withExtensionName LOCK_FILE "lock.tmp"]

/-- `Config::plugins_dir`. -/
def Config.plugins_dir (c : Config) : PathC :=
  c.redmine_root ++ ["plugins"]

/-- `Config::themes_dir`. -/
def Config.themes_dir (c : Config) : PathC :=
  c.redmine_root ++ ["themes"]

/-- Stands in for `serde_json::to_string` on an optional string field. -/
def serializeOpt : Option String → String
  | none => "null"
  | some s => "str:" ++ s

/-- Stands in for `serde_json::to_string` on a `Source`.  The claims
proved here depend only on serialization being a fixed total function of
the record, so a simple deterministic rendering is used. -/
def serialize_source : Source → String
  | .git g =>
      "git(url=" ++ g.url ++ ",branch=" ++ serializeOpt g.branch ++
        ",tag=" ++ serializeOpt g.tag ++ ",commit=" ++ serializeOpt g.commit ++ ")"
  | .github h =>
      "github(repo=" ++ h.repo ++ ",branch=" ++ serializeOpt h.branch ++
        ",tag=" ++ serializeOpt h.tag ++ ",commit=" ++ serializeOpt h.commit ++ ")"

/-- Rendering of an `ExtensionType`. -/
def serialize_type : ExtensionType → String
  | .plugin => "plugin"
  | .theme => "theme"

/-- Rendering of a `LockedExtension`. -/
def serialize_locked (le : LockedExtension) : String :=
  "(name=" ++ le.name ++ ",type=" ++ serialize_type le.extension_type ++
    ",source=" ++ serialize_source le.source ++ ",commit_hash=" ++
    serializeOpt le.commit_hash ++ ",installed_at=" ++ le.installed_at ++ ")"

/-- Stands in for `serde_json::to_string` of the whole lock file. -/
def serialize_lock_file (lf : LockFile) : String :=
  "lock[" ++ String.intercalate ";" (lf.extensions.map serialize_locked) ++ "]"

/-- `Config::save_lock_file` in src/config.rs: serialize the whole
record, write it to the temporary path next to the target, then perform
a single rename over the target. -/
def Config.save_lock_file (c : Config) (lf : LockFile) (fs : FileStore) : Except String FileStore :=
  let path := c.lock_file_path
  let content := serialize_lock_file lf
  let temp_path := c.temp_lock_path
  let fs1 := writeFile fs temp_path content
  renameFile fs1 temp_path path

/-- `Config::load_lock_file` in src/config.rs: absence of the file is
"no record"; otherwise the persisted serialized record is read back
(serde parsing of the content is elided: the claims compare persisted
content). -/
def Config.load_lock_file (c : Config) (fs : FileStore) : Option String :=
  readFile fs c.lock_file_path

/-! ## Reconciliation run (src/commands/install.rs)

The fallible external actions of a run — `GitManager::clone_or_update`,
the plugin setup hook, `fs::remove_dir_all` — are supplied as oracles
indexed by extension name, and the mutable state of a run (file store,
existing destination directories, log of attempted installs) is
threaded explicitly. -/

/-- Outcomes of the external actions of one run, per extension name, and
the timestamp `Utc::now().to_rfc3339()`. -/
structure Env where
  clone_result : String → Except String String
  hook_result : String → Except String Unit
  remove_result : String → Except String Unit
  now : String

/-- Mutable state of a run: the file store (holding the lock file), the
set of existing destination directories, and the names for which an
install was attempted (in order). -/
structure World where
  fs : FileStore
  dirs : List PathC
  install_log : List String
deriving Repr

/-- Destination directory of an extension:
`plugins_dir().join(name)` or `themes_dir().join(name)`. -/
def dest_dir (config : Config) (ty : ExtensionType) (name : String) : PathC :=
  (match ty with
   | .plugin => config.plugins_dir
   | .theme => config.themes_dir) ++ [name]

/-- Record a directory as existing. -/
def addDir (d : PathC) (dirs : List PathC) : List PathC :=
  if d ∈ dirs then dirs else dirs ++ [d]

/-- `install_extension` in src/commands/install.rs: compute the
destination, clone or update there (oracle `clone_result`), and for a
plugin run the setup hook (oracle `hook_result`); any failure aborts
with that error.  The attempt is logged on entry. -/
def install_extension (env : Env) (config : Config) (ext : Extension) (ty : ExtensionType)
    (w : World) : Except String String × World :=
  let dest := dest_dir config ty ext.name
  let w1 : World := { w with install_log := w.install_log ++ [ext.name] }
  match env.clone_result ext.name with
  | .error e => (.error e, w1)
  | .ok h =>
    let w2 : World := { w1 with dirs := addDir dest w1.dirs }
    match ty with
    | .plugin =>
      match env.hook_result ext.name with
      | .error e => (.error e, w2)
      | .ok _ => (.ok h, w2)
    | .theme => (.ok h, w2)

/-- `uninstall_extension` in src/commands/install.rs: remove the
destination directory if it exists (oracle `remove_result` for the
`fs::remove_dir_all` outcome); a missing directory is a no-op. -/
def uninstall_extension (env : Env) (config : Config) (le : LockedExtension)
    (w : World) : Except String Unit × World :=
  let dest := dest_dir config le.extension_type le.name
  if dest ∈ w.dirs then
    match env.remove_result le.name with
    | .error e => (.error e, w)
    | .ok _ => (.ok (), { w with dirs := w.dirs.filter (fun d => d != dest) })
  else
    (.ok (), w)

/-- The locked entry assembled after a successful install. -/
def mk_locked (env : Env) (ext : Extension) (ty : ExtensionType) (h : String) : LockedExtension :=
  { name := ext.name
    extension_type := ty
    source := ext.source
    commit_hash := some h
    installed_at := env.now }

/-- The install loop over added extensions (also the body of the fresh
install): install each in order, fail fast, and collect the new locked
entries. -/
def install_added (env : Env) (config : Config) :
    List (Extension × ExtensionType) → World → Except String (List LockedExtension) × World
  | [], w => (.ok [], w)
  | (e, t) :: rest, w =>
    match install_extension env config e t w with
    | (.error s, w2) => (.error s, w2)
    | (.ok h, w2) =>
      match install_added env config rest w2 with
      | (.error s, w3) => (.error s, w3)
      | (.ok ls, w3) => (.ok (mk_locked env e t h :: ls), w3)

/-- The loop over source-changed extensions: uninstall the old entry
first, then install the new source, fail fast. -/
def install_source_changed (env : Env) (config : Config) :
    List (Extension × ExtensionType × LockedExtension) → World →
      Except String (List LockedExtension) × World
  | [], w => (.ok [], w)
  | (e, t, old) :: rest, w =>
    match uninstall_extension env config old w with
    | (.error s, w2) => (.error s, w2)
    | (.ok _, w2) =>
      match install_extension env config e t w2 with
      | (.error s, w3) => (.error s, w3)
      | (.ok h, w3) =>
        match install_source_changed env config rest w3 with
        | (.error s, w4) => (.error s, w4)
        | (.ok ls, w4) => (.ok (mk_locked env e t h :: ls), w4)

/-- The loop over removed extensions: uninstall each, fail fast. -/
def uninstall_removed (env : Env) (config : Config) :
    List LockedExtension → World → Except String Unit × World
  | [], w => (.ok (), w)
  | le :: rest, w =>
    match uninstall_extension env config le w with
    | (.error s, w2) => (.error s, w2)
    | (.ok _, w2) => uninstall_removed env config rest w2

/-- `update_installation` in src/commands/install.rs: compute the diff,
install added entries, uninstall-then-reinstall source-changed entries,
uninstall removed entries, then assemble the new record (carried
unchanged entries, new entries, updated entries) and save it.  Any
failure aborts before the save.  On success it returns the record that
was saved. -/
def update_installation (env : Env) (config : Config) (cfg : ExtensionsConfig)
    (lock : LockFile) (w : World) : Except String LockFile × World :=
  let diff := calculate_diff cfg lock
  match install_added env config diff.added w with
  | (.error s, w1) => (.error s, w1)
  | (.ok new_locked, w1) =>
    match install_source_changed env config diff.source_changed w1 with
    | (.error s, w2) => (.error s, w2)
    | (.ok updated_locked, w2) =>
      match uninstall_removed env config diff.removed w2 with
      | (.error s, w3) => (.error s, w3)
      | (.ok _, w3) =>
        let updated_lock : LockFile :=
          { extensions := unchanged_extensions cfg lock ++ new_locked ++ updated_locked }
        match config.save_lock_file updated_lock w3.fs with
        | .error s => (.error s, w3)
        | .ok fs2 => (.ok updated_lock, { w3 with fs := fs2 })

/-- `install_all_extensions` in src/commands/install.rs (the fresh
install path): install every configured extension in order, fail fast,
then save the assembled record.  On success it returns the record that
was saved. -/
def install_all_extensions (env : Env) (config : Config) (cfg : ExtensionsConfig)
    (w : World) : Except String LockFile × World :=
  match install_added env config cfg.all_extensions w with
  | (.error s, w1) => (.error s, w1)
  | (.ok locked, w1) =>
    let lf : LockFile := { extensions := locked }
    match config.save_lock_file lf w1.fs with
    | .error s => (.error s, w1)
    | .ok fs2 => (.ok lf, { w1 with fs := fs2 })

/-- The locked entry a successful install of extension `e` (of kind `t`)
records: the entry's name, kind and source from the descriptor, and the
commit resolved by the clone oracle. -/
def fresh_locked (env : Env) (e : Extension) (t : ExtensionType) : LockedExtension :=
  { name := e.name
    extension_type := t
    source := e.source
    commit_hash := match env.clone_result e.name with
      | .ok h => some h
      | .error _ => none
    installed_at := env.now }

/-- The record a successful fresh install persists: one locked entry per
configured extension, in order, with the oracle-resolved commit. -/
def fresh_lock (env : Env) (cfg : ExtensionsConfig) : LockFile :=
  { extensions := cfg.all_extensions.map (fun p => fresh_locked env p.1 p.2) }

/-- The record a successful update run persists (cf.
`update_installation`): the carried unchanged entries, then one fresh
entry per added descriptor, then one fresh entry per source-changed
descriptor. -/
def updated_record (env : Env) (cfg : ExtensionsConfig) (lock : LockFile) : LockFile :=
  { extensions := unchanged_extensions cfg lock
      ++ (calculate_diff cfg lock).added.map (fun p => fresh_locked env p.1 p.2)
      ++ (calculate_diff cfg lock).source_changed.map (fun t => fresh_locked env t.1 t.2.1) }

/-- `update_extension_and_get_hash` in src/commands/update.rs: if the
destination directory exists, clone-or-update there (plus plugin hook);
if it does not exist, fail with an extension-not-found error. -/
def update_extension_and_get_hash (env : Env) (config : Config) (le : LockedExtension)
    (w : World) : Except String String × World :=
  let dest := dest_dir config le.extension_type le.name
  if dest ∈ w.dirs then
    match env.clone_result le.name with
    | .error e => (.error e, w)
    | .ok h =>
      match le.extension_type with
      | .plugin =>
        match env.hook_result le.name with
        | .error e => (.error e, w)
        | .ok _ => (.ok h, w)
      | .theme => (.ok h, w)
  else
    (.error ("Extension directory not found: " ++ le.name), w)

/-! ## Fetch backend (src/git.rs)

The git2 `Repository` is modelled as explicit state: named local
branches, remote-tracking branches (stored under their full name, e.g.
`origin/main`), tags (stored with their peeled target commit), the set
of known full commit ids, and HEAD.  `Oid::from_str` + `find_commit` is
modelled as membership of the full id in the commit set. -/

/-- HEAD of a repository: on a branch, or detached at a commit. -/
inductive Head where
  | branch : String → Head
  | detached : String → Head
deriving DecidableEq, Repr

/-- Model of a git2 `Repository`. -/
structure Repo where
  localBranches : List (String × String)
  remoteBranches : List (String × String)
  tags : List (String × String)
  commits : List String
  head : Head
deriving DecidableEq, Repr

/-- Lookup of a named reference (branch or tag) to its commit. -/
def lookupRef (l : List (String × String)) (k : String) : Option String :=
  (l.find? (fun e => e.1 == k)).map (fun e => e.2)

/-- `GitManager::checkout_reference` in src/git.rs: try, in order, an
existing local branch, the remote-tracking branch `origin/<reference>`
(creating a local branch at its commit and setting HEAD to it), a tag
(detached at the peeled commit), and a commit id (detached); if none
match, fail with the reference-not-found error. -/
def checkout_reference (repo : Repo) (reference : String) : Except String Repo :=
  match lookupRef repo.localBranches reference with
  | some _ => .ok { repo with head := .branch reference }
  | none =>
    match lookupRef repo.remoteBranches ("origin/" ++ reference) with
    | some c =>
        .ok { repo with
                localBranches := repo.localBranches ++ [(reference, c)]
                head := .branch reference }
    | none =>
      match lookupRef repo.tags reference with
      | some c => .ok { repo with head := .detached c }
      | none =>
        if reference ∈ repo.commits then
          .ok { repo with head := .detached reference }
        else
          .error ("Reference " ++ reference ++ " not found")

/-- `GitManager::checkout_default_branch` in src/git.rs: peel HEAD to a
commit and check out that tree.  Neither HEAD nor any branch moves; the
only failure is an unresolvable HEAD. -/
def checkout_default_branch (repo : Repo) : Except String Repo :=
  match repo.head with
  | .branch b =>
    match lookupRef repo.localBranches b with
    | some _ => .ok repo
    | none => .error "Failed to get repository head"
  | .detached _ => .ok repo

/-- `GitManager::get_current_commit_hash` in src/git.rs: peel HEAD to a
commit and return its id. -/
def get_current_commit_hash (repo : Repo) : Except String String :=
  match repo.head with
  | .branch b =>
    match lookupRef repo.localBranches b with
    | some c => .ok c
    | none => .error "Failed to get commit from head"
  | .detached c => .ok c

/-- Effect of `remote.fetch(&[], None, None)`: the remote-tracking
branches are brought to the remote state and fetched commits become
known; local branches and HEAD are untouched. -/
def apply_fetch (repo : Repo) (fetched : List (String × String)) (new_commits : List String) : Repo :=
  { repo with remoteBranches := fetched, commits := repo.commits ++ new_commits }

/-- `GitManager::update_repository_with_git2` in src/git.rs: fetch, then
check out the requested reference if there is one, otherwise run
`checkout_default_branch`; finally report the current HEAD commit. -/
def update_repository_with_git2 (src : Source) (repo : Repo)
    (fetched : List (String × String)) (new_commits : List String) :
    Except String (Repo × String) :=
  let r := apply_fetch repo fetched new_commits
  match src.reference with
  | some reference =>
    match checkout_reference r reference with
    | .error e => .error e
    | .ok r2 =>
      match get_current_commit_hash r2 with
      | .error e => .error e
      | .ok h => .ok (r2, h)
  | none =>
    match checkout_default_branch r with
    | .error e => .error e
    | .ok r2 =>
      match get_current_commit_hash r2 with
      | .error e => .error e
      | .ok h => .ok (r2, h)

/-- `GitManager::clone_repository_with_git2` in src/git.rs, with the
just-cloned repository (default branch checked out) supplied as state:
check out the requested reference if there is one, then report HEAD. -/
def clone_repository_with_git2 (src : Source) (cloned : Repo) : Except String (Repo × String) :=
  match src.reference with
  | some reference =>
    match checkout_reference cloned reference with
    | .error e => .error e
    | .ok r2 =>
      match get_current_commit_hash r2 with
      | .error e => .error e
      | .ok h => .ok (r2, h)
  | none =>
    match get_current_commit_hash cloned with
    | .error e => .error e
    | .ok h => .ok (cloned, h)

/-- Effect of `git reset --hard <commit>`: a branch HEAD moves the
current branch to the commit; a detached HEAD moves itself. -/
def git_reset_hard (repo : Repo) (c : String) : Repo :=
  match repo.head with
  | .branch b =>
      { repo with localBranches :=
          repo.localBranches.map (fun e => if e.1 == b then (e.1, c) else e) }
  | .detached _ => { repo with head := .detached c }

/-- `GitManager::reset_to_default_branch_with_cli` in src/git.rs: try
`git reset --hard origin/main`, then `origin/master`; if neither
remote-tracking branch exists, fail. -/
def reset_to_default_branch_with_cli (repo : Repo) : Except String Repo :=
  match lookupRef repo.remoteBranches "origin/main" with
  | some c => .ok (git_reset_hard repo c)
  | none =>
    match lookupRef repo.remoteBranches "origin/master" with
    | some c => .ok (git_reset_hard repo c)
    | none => .error "Failed to reset to default branch"

/-! ## State display (src/commands/state.rs) -/

/-- `format_source_info` in src/commands/state.rs.  The Rust code slices
the stored commit hash with `&installed_commit[..8]`, which panics when
the hash is shorter than 8 bytes; the panic is modelled as `none`.
Commit hashes are ASCII hex, so Rust byte indexing coincides with
character counting. -/
def format_source_info (source : Source) (commit_hash : Option String) : Option String :=
  let base_info :=
    match source with
    | .git g =>
      match g.commit with
      | some commit => "git: " ++ g.url ++ " at " ++ commit
      | none =>
        match g.tag with
        | some tag => "git: " ++ g.url ++ " at tag " ++ tag
        | none =>
          match g.branch with
          | some branch => "git: " ++ g.url ++ " at branch " ++ branch
          | none => "git: " ++ g.url
    | .github h =>
      match h.commit with
      | some commit => "github: " ++ h.repo ++ " at " ++ commit
      | none =>
        match h.tag with
        | some tag => "github: " ++ h.repo ++ " at tag " ++ tag
        | none =>
          match h.branch with
          | some branch => "github: " ++ h.repo ++ " at branch " ++ branch
          | none => "github: " ++ h.repo
  match commit_hash with
  | some installed_commit =>
    if 8 ≤ installed_commit.length then
      some (base_info ++ ", installed: " ++ installed_commit.take 8)
    else
      none
  | none => some base_info

/-! ## Concrete instances used by counterexamples and witnesses -/

/-- A concrete configuration rooted at `root`. -/
def config0 : Config := { redmine_root := ["root"] }

/-- An environment in which every clone attempt fails. -/
def env_fail : Env :=
  { clone_result := fun _ => .error "clone failed"
    hook_result := fun _ => .ok ()
    remove_result := fun _ => .ok ()
    now := "2024-06-01T00:00:00Z" }

/-- An environment in which every external action succeeds. -/
def env_ok : Env :=
  { clone_result := fun n => .ok ("commit-of-" ++ n)
    hook_result := fun _ => .ok ()
    remove_result := fun _ => .ok ()
    now := "2024-06-01T00:00:00Z" }

/-- An empty world: no files, no directories. -/
def world0 : World := { fs := [], dirs := [], install_log := [] }

/-- A hosted-repository descriptor pinned to tag v1. -/
def gh5 : GitHub := { repo := "owner/name", branch := none, tag := some "v1", commit := none }

/-- A direct-repository descriptor whose URL is exactly the canonical
expansion of `gh5`, with the same reference. -/
def git5 : Git :=
  { url := "https://github.com/owner/name.git", branch := none, tag := some "v1", commit := none }

/-- Desired set for the C5 counterexample: one plugin using the direct
URL form. -/
def cfg5 : ExtensionsConfig :=
  { plugins := [{ name := "a", source := .git git5 }], themes := [] }

/-- Observed record for the C5 counterexample: the same extension
recorded under the hosted shorthand form. -/
def lock5 : LockFile :=
  { extensions := [⟨"a", .plugin, .github gh5, some "0123456789abcdef", "2024-01-01T00:00:00Z"⟩] }

/-- A plain branch-less git source. -/
def src7 : Source :=
  .git { url := "https://example.com/a.git", branch := none, tag := none, commit := none }

/-- Desired set for the C7 counterexample: one plugin `a`. -/
def cfg7 : ExtensionsConfig :=
  { plugins := [{ name := "a", source := src7 }], themes := [] }

/-- Locked entry for `a` with the identical source. -/
def le7 : LockedExtension :=
  { name := "a", extension_type := .plugin, source := src7,
    commit_hash := some "0123456789abcdef", installed_at := "2024-01-01T00:00:00Z" }

/-- Observed record for the C7 counterexample. -/
def lock7 : LockFile := { extensions := [le7] }

/-- Desired set for the C9 counterexample: a plugin and a theme that
share the name `a` but point at different sources. -/
def cfg9 : ExtensionsConfig :=
  { plugins := [⟨"a", .git ⟨"https://example.com/p.git", none, none, none⟩⟩]
    themes := [⟨"a", .git ⟨"https://example.com/t.git", none, none, none⟩⟩] }

/-- Desired set for the C1 witness: one plugin to add. -/
def cfg1 : ExtensionsConfig :=
  { plugins := [{ name := "b", source := src7 }], themes := [] }

/-- An empty observed record. -/
def lock_empty : LockFile := { extensions := [] }

/-- A world already holding a previously persisted record. -/
def world_old : World :=
  { fs := [(config0.lock_file_path, "OLD-RECORD")], dirs := [], install_log := [] }

/-- Repository for the C6 counterexample: the remote default branch is
named `trunk`, the local checkout sits on it at commit `aaa`. -/
def repo6 : Repo :=
  { localBranches := [("trunk", "aaa")]
    remoteBranches := [("origin/trunk", "aaa")]
    tags := []
    commits := ["aaa"]
    head := .branch "trunk" }

/-- Fetch result for the C6 counterexample: the remote default branch
`trunk` has advanced to `bbb`. -/
def fetched6 : List (String × String) := [("origin/trunk", "bbb")]

/-- Repository for the C4 evaluation: no local branch `x`, a
remote-tracking branch `origin/x` at `c1`, and a tag `x` at `c2`. -/
def repo4 : Repo :=
  { localBranches := []
    remoteBranches := [("origin/x", "c1")]
    tags := [("x", "c2")]
    commits := ["c1", "c2"]
    head := .detached "c1" }

/-- Repository for the C4 branch-versus-tag case: both a local branch
and a tag named `y`. -/
def repo4b : Repo :=
  { localBranches := [("y", "c3")]
    remoteBranches := []
    tags := [("y", "c4")]
    commits := ["c3", "c4"]
    head := .detached "c3" }

/-- Repository for the C8 witness: knows nothing called `nope`. -/
def repo8 : Repo :=
  { localBranches := [("main", "m1")]
    remoteBranches := [("origin/main", "m1")]
    tags := []
    commits := ["m1"]
    head := .branch "main" }

/-- A source requesting the reference `nope`. -/
def src8 : Source :=
  .git { url := "https://example.com/r.git", branch := some "nope", tag := none, commit := none }

/-! ## Shared lemmas -/

/-- Reading a path just written yields the written content. -/
theorem readFile_writeFile_self (fs : FileStore) (p : PathC) (c : String) :
    readFile (writeFile fs p c) p = some c := by
  unfold readFile writeFile
  rw [List.find?_cons_of_pos]
  · rfl
  · simp

/-- Filtering out entries at a different path does not change a lookup. -/
theorem find?_filter_ne (fs : FileStore) (p q : PathC) (h : p ≠ q) :
    (fs.filter (fun e => e.1 != p)).find? (fun e => e.1 == q) =
      fs.find? (fun e => e.1 == q) := by
  induction fs with
  | nil => rfl
  | cons a rest ih =>
    by_cases hp : a.1 = p
    · have ha : (a.1 != p) = false := by simp [hp]
      have haq : (a.1 == q) = false := by
        simp only [beq_eq_false_iff_ne, ne_eq, hp]
        exact h
      simp [List.filter_cons, ha, List.find?_cons, haq, ih]
    · have ha : (a.1 != p) = true := by simp [hp]
      cases hq : (a.1 == q) with
      | true => simp [List.filter_cons, ha, List.find?_cons, hq]
      | false => simp [List.filter_cons, ha, List.find?_cons, hq, ih]

/-- Writing one path does not change what is read at another. -/
theorem readFile_writeFile_ne (fs : FileStore) (p q : PathC) (c : String) (h : p ≠ q) :
    readFile (writeFile fs p c) q = readFile fs q := by
  unfold readFile writeFile
  rw [List.find?_cons_of_neg]
  · rw [find?_filter_ne fs p q h]
  · simp [h]

/-- `save_lock_file` always succeeds and its result is the write-then-
rename composite. -/
theorem save_lock_file_spec (c : Config) (lf : LockFile) (fs : FileStore) :
    c.save_lock_file lf fs =
      .ok (writeFile
            ((writeFile fs c.temp_lock_path (serialize_lock_file lf)).filter
              (fun e => e.1 != c.temp_lock_path))
            c.lock_file_path (serialize_lock_file lf)) := by
  simp [Config.save_lock_file, renameFile, readFile_writeFile_self]

/-- The temporary file name differs from the lock file name. -/
theorem temp_name_ne_lock_name : withExtensionName LOCK_FILE "lock.tmp" ≠ LOCK_FILE := by
  decide

/-- The temporary path differs from the lock file path. -/
theorem temp_lock_path_ne (c : Config) : c.temp_lock_path ≠ c.lock_file_path := by
  unfold Config.temp_lock_path Config.lock_file_path
  intro h
  have h2 := List.append_cancel_left h
  simp only [List.cons.injEq, and_true] at h2
  exact temp_name_ne_lock_name h2

/-- Source equality in the code is structural equality within a variant. -/
theorem sources_equal_iff (s t : Source) : sources_equal s t = true ↔ s = t := by
  cases s with
  | git g1 =>
    cases t with
    | git g2 =>
      cases g1; cases g2
      simp [sources_equal, Git.mk.injEq, and_assoc]
    | github h2 => simp [sources_equal]
  | github h1 =>
    cases t with
    | git g2 => simp [sources_equal]
    | github h2 =>
      cases h1; cases h2
      simp [sources_equal, GitHub.mk.injEq, and_assoc]

/-- Source equality is reflexive. -/
theorem sources_equal_refl (s : Source) : sources_equal s s = true :=
  (sources_equal_iff s s).mpr rfl

/-! ## Claim C3: atomic persistence of the installed-state record -/

/-- C3: `save_lock_file` serializes the record to a temporary file in
the same directory as the target lock file and then performs a single
rename over the target; writing the temporary file (the state at any
crash point before the rename) leaves the previously persisted record,
or its absence, exactly readable by a subsequent `load_lock_file`, and
the completed save leaves the new record readable. -/
theorem save_lock_file_atomic (config : Config) (lf : LockFile) (fs : FileStore) :
    config.temp_lock_path.dropLast = config.lock_file_path.dropLast ∧
    config.temp_lock_path ≠ config.lock_file_path ∧
    Config.load_lock_file config (writeFile fs config.temp_lock_path (serialize_lock_file lf))
      = Config.load_lock_file config fs ∧
    ∃ fs2, config.save_lock_file lf fs = .ok fs2 ∧
      Config.load_lock_file config fs2 = some (serialize_lock_file lf) := by
  refine ⟨?_, temp_lock_path_ne config, ?_, ?_⟩
  · simp [Config.temp_lock_path, Config.lock_file_path]
  · exact readFile_writeFile_ne fs _ _ _ (temp_lock_path_ne config)
  · refine ⟨_, save_lock_file_spec config lf fs, ?_⟩
    exact readFile_writeFile_self _ _ _

/-- C3 witness: the atomicity properties at a concrete configuration,
record and file store. -/
theorem save_lock_file_atomic_witness :
    config0.temp_lock_path.dropLast = config0.lock_file_path.dropLast ∧
    config0.temp_lock_path ≠ config0.lock_file_path ∧
    Config.load_lock_file config0
        (writeFile [(config0.lock_file_path, "OLD-RECORD")] config0.temp_lock_path
          (serialize_lock_file lock_empty))
      = Config.load_lock_file config0 [(config0.lock_file_path, "OLD-RECORD")] ∧
    ∃ fs2, config0.save_lock_file lock_empty [(config0.lock_file_path, "OLD-RECORD")] = .ok fs2 ∧
      Config.load_lock_file config0 fs2 = some (serialize_lock_file lock_empty) :=
  save_lock_file_atomic config0 lock_empty [(config0.lock_file_path, "OLD-RECORD")]

/-! ## Claim C5: descriptor equality is per-variant structural, not
canonical-URL based -/

/-- C5 counterexample: a direct-repository descriptor whose URL is
exactly the canonical expansion of the hosted shorthand, with the same
reference, is not equal under `sources_equal`, and the reconciler
classifies such a pair as source-changed. -/
theorem sources_equal_cross_variant_counterexample :
    GitHub.url gh5 = git5.url ∧
    Source.reference (.github gh5) = Source.reference (.git git5) ∧
    sources_equal (.git git5) (.github gh5) = false ∧
    (calculate_diff cfg5 lock5).source_changed ≠ [] := by
  refine ⟨rfl, rfl, rfl, ?_⟩
  decide

/-- C5 as amended: two source descriptors are equal under
`sources_equal` exactly when they are the same variant with identical
url/repo, branch, tag and commit fields; descriptors of different
variants are never equal, even when the direct URL equals the canonical
expansion of the hosted shorthand. -/
theorem sources_equal_structural (s t : Source) :
    sources_equal s t = true ↔ s = t :=
  sources_equal_iff s t

/-- C5 witness: structural equality evaluated at a concrete pair. -/
theorem sources_equal_structural_witness :
    sources_equal (.git git5) (.git git5) = true :=
  (sources_equal_structural (.git git5) (.git git5)).mpr rfl

/-! ## Claim C10: the state display slices 8 bytes of the stored hash -/

/-- C10: formatting a locked entry's source info is well-defined for
every stored commit hash of length at least 8 (it slices the first 8
characters), and panics — modelled as `none` — on a stored hash shorter
than 8, rather than returning an error value. -/
theorem format_source_info_slice :
    (∀ (src : Source) (h : String), 8 ≤ h.length →
      (format_source_info src (some h)).isSome = true) ∧
    format_source_info src7 (some "abc") = none := by
  constructor
  · intro src h h8
    unfold format_source_info
    simp only [h8, if_true, Option.isSome_some]
  · decide

/-- C10 witness: a concrete 16-character hash formats successfully. -/
theorem format_source_info_slice_witness :
    (format_source_info src7 (some "0123456789abcdef")).isSome = true :=
  format_source_info_slice.1 src7 "0123456789abcdef" (by decide)

/-! ## Claim C2: the diff partitions the names -/

/-- Membership in the desired names. -/
theorem mem_desired_names (cfg : ExtensionsConfig) (n : String) :
    n ∈ desired_names cfg ↔ ∃ p, p ∈ cfg.all_extensions ∧ p.1.name = n := by
  simp [desired_names, List.mem_map]

/-- Membership in the observed names. -/
theorem mem_observed_names (lock : LockFile) (n : String) :
    n ∈ observed_names lock ↔ ∃ le, le ∈ lock.extensions ∧ le.name = n := by
  simp [observed_names, List.mem_map]

/-- A name is added exactly when it is desired and absent from the lock
file. -/
theorem mem_added_names (cfg : ExtensionsConfig) (lock : LockFile) (n : String) :
    n ∈ added_names cfg lock ↔
      (∃ p, p ∈ cfg.all_extensions ∧ p.1.name = n) ∧
        ∀ le ∈ lock.extensions, le.name ≠ n := by
  simp only [added_names, calculate_diff, List.mem_map, List.mem_filter,
    Option.isNone_iff_eq_none, List.find?_eq_none, beq_iff_eq]
  constructor
  · rintro ⟨p, ⟨hp, hnone⟩, rfl⟩
    exact ⟨⟨p, hp, rfl⟩, fun le hle => hnone le hle⟩
  · rintro ⟨⟨p, hp, rfl⟩, hall⟩
    exact ⟨p, ⟨hp, fun le hle => hall le hle⟩, rfl⟩

/-- A name is removed exactly when it is observed and absent from the
desired set. -/
theorem mem_removed_names (cfg : ExtensionsConfig) (lock : LockFile) (n : String) :
    n ∈ removed_names cfg lock ↔
      (∃ le, le ∈ lock.extensions ∧ le.name = n) ∧
        ∀ p ∈ cfg.all_extensions, p.1.name ≠ n := by
  simp only [removed_names, calculate_diff, List.mem_map, List.mem_filter,
    Bool.not_eq_true', List.any_eq_false, beq_iff_eq]
  constructor
  · rintro ⟨le, ⟨hle, hall⟩, rfl⟩
    exact ⟨⟨le, hle, rfl⟩, fun p hp => hall p hp⟩
  · rintro ⟨⟨le, hle, rfl⟩, hall⟩
    exact ⟨le, ⟨hle, fun p hp => hall p hp⟩, rfl⟩

/-- A name is source-changed exactly when some desired entry of that
name finds a first lock entry of the same name with an unequal source. -/
theorem mem_source_changed_names (cfg : ExtensionsConfig) (lock : LockFile) (n : String) :
    n ∈ source_changed_names cfg lock ↔
      ∃ p, p ∈ cfg.all_extensions ∧ p.1.name = n ∧
        ∃ le, lock.extensions.find? (fun x => x.name == p.1.name) = some le ∧
          sources_equal p.1.source le.source = false := by
  simp only [source_changed_names, calculate_diff, List.mem_map, List.mem_filterMap]
  constructor
  · rintro ⟨t, ⟨p, hp, hf⟩, rfl⟩
    cases hfind : lock.extensions.find? (fun x => x.name == p.1.name) with
    | none => rw [hfind] at hf; simp at hf
    | some le =>
      rw [hfind] at hf
      have hf2 : (if sources_equal p.1.source le.source = true then none
          else some (p.1, p.2, le)) = some t := hf
      cases hse : sources_equal p.1.source le.source with
      | true => rw [hse] at hf2; simp at hf2
      | false =>
        rw [hse] at hf2
        simp only [Bool.false_eq_true, if_false, Option.some.injEq] at hf2
        have hname : le.name = p.1.name := by
          have := List.find?_some hfind
          simpa [beq_iff_eq] using this
        refine ⟨p, hp, ?_, le, hfind, hse⟩
        rw [← hf2]
        exact hname.symm
  · rintro ⟨p, hp, hname, le, hfind, hse⟩
    refine ⟨(p.1, p.2, le), ⟨p, hp, ?_⟩, ?_⟩
    · rw [hfind]
      simp [hse]
    · have : le.name = p.1.name := by
        have := List.find?_some hfind
        simpa [beq_iff_eq] using this
      simp only []
      rw [this, hname]

/-- A name is carried (unchanged) exactly when it is observed and names
neither a removed entry nor the old entry of a source-changed pair. -/
theorem mem_unchanged_names (cfg : ExtensionsConfig) (lock : LockFile) (n : String) :
    n ∈ unchanged_names cfg lock ↔
      (∃ le, le ∈ lock.extensions ∧ le.name = n) ∧
        n ∉ removed_names cfg lock ∧ n ∉ source_changed_names cfg lock := by
  simp only [unchanged_names, unchanged_extensions, removed_names, source_changed_names,
    List.mem_map, List.mem_filter, Bool.and_eq_true, Bool.not_eq_true',
    List.any_eq_false, beq_iff_eq, not_exists, not_and]
  constructor
  · rintro ⟨le, ⟨hle, hrem, hsc⟩, rfl⟩
    exact ⟨⟨le, hle, rfl⟩, fun r hr => hrem r hr, fun t ht => hsc t ht⟩
  · rintro ⟨⟨le, hle, rfl⟩, hrem, hsc⟩
    exact ⟨le, ⟨hle, fun r hr => hrem r hr, fun t ht => hsc t ht⟩, rfl⟩

/-- C2: for every name, added/source-changed/unchanged together are
exactly the names of the desired set, removed/source-changed/unchanged
together are exactly the names of the observed record, and the three
computed categories are pairwise disjoint by name. -/
theorem diff_partitions_names (cfg : ExtensionsConfig) (lock : LockFile) (n : String) :
    ((n ∈ added_names cfg lock ∨ n ∈ source_changed_names cfg lock ∨
        n ∈ unchanged_names cfg lock) ↔ n ∈ desired_names cfg) ∧
    ((n ∈ removed_names cfg lock ∨ n ∈ source_changed_names cfg lock ∨
        n ∈ unchanged_names cfg lock) ↔ n ∈ observed_names lock) ∧
    ¬ (n ∈ added_names cfg lock ∧ n ∈ removed_names cfg lock) ∧
    ¬ (n ∈ added_names cfg lock ∧ n ∈ source_changed_names cfg lock) ∧
    ¬ (n ∈ removed_names cfg lock ∧ n ∈ source_changed_names cfg lock) := by
  refine ⟨⟨?_, ?_⟩, ⟨?_, ?_⟩, ?_, ?_, ?_⟩
  · rintro (h | h | h)
    · exact (mem_desired_names cfg n).mpr ((mem_added_names cfg lock n).mp h).1
    · obtain ⟨p, hp, hn, -⟩ := (mem_source_changed_names cfg lock n).mp h
      exact (mem_desired_names cfg n).mpr ⟨p, hp, hn⟩
    · obtain ⟨-, hrem, -⟩ := (mem_unchanged_names cfg lock n).mp h
      obtain ⟨⟨le, hle, hn⟩, -, -⟩ := (mem_unchanged_names cfg lock n).mp h
      by_contra hd
      refine hrem ((mem_removed_names cfg lock n).mpr ⟨⟨le, hle, hn⟩, ?_⟩)
      intro p hp hpn
      exact hd ((mem_desired_names cfg n).mpr ⟨p, hp, hpn⟩)
  · intro hd
    obtain ⟨p, hp, hn⟩ := (mem_desired_names cfg n).mp hd
    cases hfind : lock.extensions.find? (fun x => x.name == p.1.name) with
    | none =>
      refine Or.inl ((mem_added_names cfg lock n).mpr ⟨⟨p, hp, hn⟩, ?_⟩)
      intro le hle
      have := List.find?_eq_none.mp hfind le hle
      simp only [beq_iff_eq] at this
      rw [← hn]
      exact this
    | some le =>
      have hlename : le.name = p.1.name := by
        have := List.find?_some hfind
        simpa [beq_iff_eq] using this
      have hlemem : le ∈ lock.extensions := List.mem_of_find?_eq_some hfind
      by_cases hse : sources_equal p.1.source le.source
      · by_cases hsc : n ∈ source_changed_names cfg lock
        · exact Or.inr (Or.inl hsc)
        · refine Or.inr (Or.inr ((mem_unchanged_names cfg lock n).mpr
            ⟨⟨le, hlemem, by rw [hlename, hn]⟩, ?_, hsc⟩))
          intro hrm
          obtain ⟨-, hall⟩ := (mem_removed_names cfg lock n).mp hrm
          exact hall p hp hn
      · refine Or.inr (Or.inl ((mem_source_changed_names cfg lock n).mpr
          ⟨p, hp, hn, le, hfind, Bool.eq_false_iff.mpr hse⟩))
  · rintro (h | h | h)
    · obtain ⟨⟨le, hle, hn⟩, -⟩ := (mem_removed_names cfg lock n).mp h
      exact (mem_observed_names lock n).mpr ⟨le, hle, hn⟩
    · obtain ⟨p, hp, hn, le, hfind, -⟩ := (mem_source_changed_names cfg lock n).mp h
      have hlename : le.name = p.1.name := by
        have := List.find?_some hfind
        simpa [beq_iff_eq] using this
      exact (mem_observed_names lock n).mpr
        ⟨le, List.mem_of_find?_eq_some hfind, by rw [hlename, hn]⟩
    · obtain ⟨⟨le, hle, hn⟩, -, -⟩ := (mem_unchanged_names cfg lock n).mp h
      exact (mem_observed_names lock n).mpr ⟨le, hle, hn⟩
  · intro ho
    obtain ⟨le, hle, hn⟩ := (mem_observed_names lock n).mp ho
    by_cases hd : ∃ p, p ∈ cfg.all_extensions ∧ p.1.name = n
    · by_cases hsc : n ∈ source_changed_names cfg lock
      · exact Or.inr (Or.inl hsc)
      · refine Or.inr (Or.inr ((mem_unchanged_names cfg lock n).mpr
          ⟨⟨le, hle, hn⟩, ?_, hsc⟩))
        intro hrm
        obtain ⟨-, hall⟩ := (mem_removed_names cfg lock n).mp hrm
        obtain ⟨p, hp, hpn⟩ := hd
        exact hall p hp hpn
    · refine Or.inl ((mem_removed_names cfg lock n).mpr ⟨⟨le, hle, hn⟩, ?_⟩)
      intro p hp hpn
      exact hd ⟨p, hp, hpn⟩
  · rintro ⟨ha, hr⟩
    obtain ⟨-, habs⟩ := (mem_added_names cfg lock n).mp ha
    obtain ⟨⟨le, hle, hn⟩, -⟩ := (mem_removed_names cfg lock n).mp hr
    exact habs le hle hn
  · rintro ⟨ha, hs⟩
    obtain ⟨-, habs⟩ := (mem_added_names cfg lock n).mp ha
    obtain ⟨p, hp, hn, le, hfind, -⟩ := (mem_source_changed_names cfg lock n).mp hs
    have hlename : le.name = p.1.name := by
      have := List.find?_some hfind
      simpa [beq_iff_eq] using this
    exact habs le (List.mem_of_find?_eq_some hfind) (by rw [hlename, hn])
  · rintro ⟨hr, hs⟩
    obtain ⟨-, hall⟩ := (mem_removed_names cfg lock n).mp hr
    obtain ⟨p, hp, hn, -⟩ := (mem_source_changed_names cfg lock n).mp hs
    exact hall p hp hn

/-- C2 witness: the partition properties at a concrete desired set,
record and name. -/
theorem diff_partitions_names_witness :
    ((("a" ∈ added_names cfg5 lock5 ∨ "a" ∈ source_changed_names cfg5 lock5 ∨
        "a" ∈ unchanged_names cfg5 lock5) ↔ "a" ∈ desired_names cfg5) ∧
    (("a" ∈ removed_names cfg5 lock5 ∨ "a" ∈ source_changed_names cfg5 lock5 ∨
        "a" ∈ unchanged_names cfg5 lock5) ↔ "a" ∈ observed_names lock5) ∧
    ¬ ("a" ∈ added_names cfg5 lock5 ∧ "a" ∈ removed_names cfg5 lock5) ∧
    ¬ ("a" ∈ added_names cfg5 lock5 ∧ "a" ∈ source_changed_names cfg5 lock5) ∧
    ¬ ("a" ∈ removed_names cfg5 lock5 ∧ "a" ∈ source_changed_names cfg5 lock5)) :=
  diff_partitions_names cfg5 lock5 "a"

/-! ## Claim C9: idempotence of reconciliation -/

/-- A successful install of one extension means its clone oracle
succeeded with the returned hash. -/
theorem install_extension_ok_clone (env : Env) (config : Config) (e : Extension)
    (t : ExtensionType) (w : World) (h : String) (w2 : World)
    (hok : install_extension env config e t w = (.ok h, w2)) :
    env.clone_result e.name = .ok h := by
  unfold install_extension at hok
  cases hc : env.clone_result e.name with
  | error s => rw [hc] at hok; simp at hok
  | ok h0 =>
    rw [hc] at hok
    cases t with
    | plugin =>
      cases hh : env.hook_result e.name with
      | error s => rw [hh] at hok; simp at hok
      | ok u => rw [hh] at hok; simp at hok; rw [hok.1]
    | theme => simp at hok; rw [hok.1]

/-- A successful run of the install loop produces exactly one locked
entry per input, in order, with the oracle-resolved commit. -/
theorem install_added_ok (env : Env) (config : Config) :
    ∀ (l : List (Extension × ExtensionType)) (w : World) (ls : List LockedExtension) (w2 : World),
      install_added env config l w = (.ok ls, w2) →
      ls = l.map (fun p => fresh_locked env p.1 p.2)
  | [], w, ls, w2, hok => by
    simp only [install_added, Prod.mk.injEq, Except.ok.injEq] at hok
    simp [← hok.1]
  | (e, t) :: rest, w, ls, w2, hok => by
    unfold install_added at hok
    cases hi : install_extension env config e t w with
    | mk res wi =>
      rw [hi] at hok
      cases res with
      | error s => simp at hok
      | ok h =>
        have hok2 : (match install_added env config rest wi with
            | (Except.error s, w3) =>
                ((Except.error s, w3) : Except String (List LockedExtension) × World)
            | (Except.ok ls2, w3) => (Except.ok (mk_locked env e t h :: ls2), w3)) =
              (Except.ok ls, w2) := hok
        cases hr : install_added env config rest wi with
        | mk res2 wr =>
          rw [hr] at hok2
          cases res2 with
          | error s => simp at hok2
          | ok ls2 =>
            simp only [Prod.mk.injEq, Except.ok.injEq] at hok2
            have hclone := install_extension_ok_clone env config e t w h wi hi
            have ih := install_added_ok env config rest wi ls2 wr hr
            rw [← hok2.1, ih]
            simp [mk_locked, fresh_locked, hclone]

/-- A successful fresh install persists exactly the fresh record. -/
theorem install_all_extensions_ok (env : Env) (config : Config) (cfg : ExtensionsConfig)
    (w : World) (rec : LockFile)
    (hok : (install_all_extensions env config cfg w).1 = .ok rec) :
    rec = fresh_lock env cfg := by
  unfold install_all_extensions at hok
  cases hA : install_added env config cfg.all_extensions w with
  | mk resA wA =>
    rw [hA] at hok
    cases resA with
    | error s => simp at hok
    | ok locked =>
      have hok2 : (match config.save_lock_file { extensions := locked } wA.fs with
          | Except.error s => ((Except.error s, wA) : Except String LockFile × World)
          | Except.ok fs2 =>
              (Except.ok ({ extensions := locked } : LockFile), { wA with fs := fs2 })).1 =
            Except.ok rec := hok
      rw [save_lock_file_spec] at hok2
      simp only [Except.ok.injEq] at hok2
      rw [← hok2]
      have := install_added_ok env config cfg.all_extensions w locked wA hA
      unfold fresh_lock
      rw [this]

/-- In a list of extensions with globally distinct names, the first
entry of the fresh record matching a member's name is that member's own
entry. -/
theorem find?_fresh_self (env : Env) :
    ∀ (l : List (Extension × ExtensionType)) (p : Extension × ExtensionType),
      p ∈ l → (l.map (fun q => q.1.name)).Nodup →
      (l.map (fun q => fresh_locked env q.1 q.2)).find? (fun x => x.name == p.1.name) =
        some (fresh_locked env p.1 p.2)
  | a :: rest, p, hp, hnd => by
    rcases List.mem_cons.mp hp with heq | hmem
    · subst heq
      simp [List.find?_cons, fresh_locked]
    · have hne : (a.1.name == p.1.name) = false := by
        simp only [beq_eq_false_iff_ne, ne_eq]
        intro hcontra
        have hnotin := (List.nodup_cons.mp hnd).1
        refine hnotin ?_
        rw [show (fun q => q.1.name) a = p.1.name from hcontra]
        exact List.mem_map.mpr ⟨p, hmem, rfl⟩
      simp only [List.map_cons, List.find?_cons, fresh_locked, hne]
      exact find?_fresh_self env rest p hmem (List.nodup_cons.mp hnd).2

/-- A successful run of the source-changed loop produces exactly one
fresh locked entry per input triple, in order. -/
theorem install_source_changed_ok (env : Env) (config : Config) :
    ∀ (l : List (Extension × ExtensionType × LockedExtension)) (w : World)
      (ls : List LockedExtension) (w2 : World),
      install_source_changed env config l w = (.ok ls, w2) →
      ls = l.map (fun t => fresh_locked env t.1 t.2.1)
  | [], w, ls, w2, hok => by
    simp only [install_source_changed, Prod.mk.injEq, Except.ok.injEq] at hok
    simp [← hok.1]
  | (e, t, old) :: rest, w, ls, w2, hok => by
    simp only [install_source_changed] at hok
    split at hok
    · rename_i s wu heq
      injection hok with h1 h2
      exact Except.noConfusion h1
    · rename_i u wu heq
      split at hok
      · rename_i s2 wi heq2
        injection hok with h1 h2
        exact Except.noConfusion h1
      · rename_i h wi heq2
        split at hok
        · rename_i s3 wr heq3
          injection hok with h1 h2
          exact Except.noConfusion h1
        · rename_i ls2 wr heq3
          injection hok with h1 h2
          injection h1 with h1
          have hclone := install_extension_ok_clone env config e t wu h wi heq2
          have ih := install_source_changed_ok env config rest wi ls2 wr heq3
          rw [← h1, ih]
          simp [mk_locked, fresh_locked, hclone]

/-- A successful update run saves exactly `updated_record`. -/
theorem update_installation_ok_record (env : Env) (config : Config) (cfg : ExtensionsConfig)
    (lock : LockFile) (w : World) (rec : LockFile)
    (hok : (update_installation env config cfg lock w).1 = .ok rec) :
    rec = updated_record env cfg lock := by
  cases hrun : update_installation env config cfg lock w with
  | mk res w2 =>
    rw [hrun] at hok
    have hok2 : res = Except.ok rec := hok
    subst hok2
    simp only [update_installation] at hrun
    split at hrun
    · rename_i s1 w1 heq
      injection hrun with h1 h2
      exact Except.noConfusion h1
    · rename_i newL w1 heq
      split at hrun
      · rename_i s2 wB heq2
        injection hrun with h1 h2
        exact Except.noConfusion h1
      · rename_i updL wB heq2
        split at hrun
        · rename_i s3 wC heq3
          injection hrun with h1 h2
          exact Except.noConfusion h1
        · rename_i u wC heq3
          split at hrun
          · rename_i s4 heq4
            rw [save_lock_file_spec] at heq4
            exact absurd heq4 (by simp)
          · rename_i fs2 heq4
            injection hrun with h1 h2
            injection h1 with h1
            subst h1
            have hnewL := install_added_ok env config (calculate_diff cfg lock).added w
              newL w1 heq
            have hupdL := install_source_changed_ok env config
              (calculate_diff cfg lock).source_changed w1 updL wB heq2
            unfold updated_record
            rw [hnewL, hupdL]

/-- Two desired entries with the same name coincide when the desired
names are pairwise distinct. -/
theorem desired_name_inj (cfg : ExtensionsConfig) (hnd : (desired_names cfg).Nodup)
    {p q : Extension × ExtensionType} (hp : p ∈ cfg.all_extensions)
    (hq : q ∈ cfg.all_extensions) (h : p.1.name = q.1.name) : p = q :=
  List.inj_on_of_nodup_map hnd hp hq h

/-- The first match of a predicate survives filtering, provided it
satisfies the filter. -/
theorem find?_filter_of_found {α : Type} (f q : α → Bool) :
    ∀ (l : List α) (x : α), l.find? f = some x → q x = true →
      (l.filter q).find? f = some x
  | [], x, h, _ => by simp at h
  | a :: l, x, h, hq => by
    cases hfa : f a with
    | true =>
      rw [List.find?_cons_of_pos _ hfa] at h
      injection h with h
      subst h
      rw [List.filter_cons_of_pos hq, List.find?_cons_of_pos _ hfa]
    | false =>
      rw [List.find?_cons_of_neg _ (by simp [hfa])] at h
      by_cases hqa : q a = true
      · rw [List.filter_cons_of_pos hqa, List.find?_cons_of_neg _ (by simp [hfa])]
        exact find?_filter_of_found f q l x h hq
      · rw [List.filter_cons_of_neg hqa]
        exact find?_filter_of_found f q l x h hq

/-- Element-level characterization of a source-changed triple: its
descriptor is desired, the old entry is the first lock match for the
descriptor's name, and the sources differ. -/
theorem mem_source_changed_elem (cfg : ExtensionsConfig) (lock : LockFile)
    (t : Extension × ExtensionType × LockedExtension)
    (ht : t ∈ (calculate_diff cfg lock).source_changed) :
    (t.1, t.2.1) ∈ cfg.all_extensions ∧
    lock.extensions.find? (fun le => le.name == t.1.name) = some t.2.2 ∧
    sources_equal t.1.source t.2.2.source = false := by
  simp only [calculate_diff, List.mem_filterMap] at ht
  obtain ⟨p, hp, hf⟩ := ht
  cases hfind : lock.extensions.find? (fun x => x.name == p.1.name) with
  | none => rw [hfind] at hf; simp at hf
  | some le =>
    rw [hfind] at hf
    have hf2 : (if sources_equal p.1.source le.source = true then none
        else some (p.1, p.2, le)) = some t := hf
    cases hse : sources_equal p.1.source le.source with
    | true => rw [hse] at hf2; simp at hf2
    | false =>
      rw [hse] at hf2
      simp only [Bool.false_eq_true, if_false, Option.some.injEq] at hf2
      subst hf2
      exact ⟨hp, hfind, hse⟩

/-- Componentwise emptiness of an `InstallDiff`. -/
theorem installdiff_ext (d : InstallDiff) (h1 : d.added = []) (h2 : d.removed = [])
    (h3 : d.source_changed = []) :
    d = { added := [], removed := [], source_changed := [] } := by
  cases d
  simp_all

/-- In the record a successful update run saves, looking up any desired
name finds an entry carrying exactly the desired source (the carried
first match when the source was unchanged, a fresh entry otherwise). -/
theorem find_in_updated_record (env : Env) (cfg : ExtensionsConfig) (lock : LockFile)
    (hnd : (desired_names cfg).Nodup)
    (p : Extension × ExtensionType) (hp : p ∈ cfg.all_extensions) :
    ∃ x, (updated_record env cfg lock).extensions.find? (fun le => le.name == p.1.name)
        = some x ∧ x.source = p.1.source := by
  have hnd2 : (cfg.all_extensions.map (fun q => q.1.name)).Nodup := hnd
  simp only [updated_record]
  rw [List.find?_append, List.find?_append]
  cases hfind : lock.extensions.find? (fun le => le.name == p.1.name) with
  | none =>
    have hU : (unchanged_extensions cfg lock).find? (fun le => le.name == p.1.name) = none := by
      rw [List.find?_eq_none]
      intro x hx
      have hxlock : x ∈ lock.extensions := by
        simp only [unchanged_extensions, List.mem_filter] at hx
        exact hx.1
      exact List.find?_eq_none.mp hfind x hxlock
    have hpadd : p ∈ (calculate_diff cfg lock).added := by
      simp only [calculate_diff, List.mem_filter]
      exact ⟨hp, by rw [hfind]; rfl⟩
    have hndA : ((calculate_diff cfg lock).added.map (fun q => q.1.name)).Nodup :=
      hnd2.sublist (List.Sublist.map _ (List.filter_sublist _))
    have hA := find?_fresh_self env (calculate_diff cfg lock).added p hpadd hndA
    refine ⟨fresh_locked env p.1 p.2, ?_, rfl⟩
    rw [hU, hA]
    rfl
  | some le₀ =>
    have hle₀name : le₀.name = p.1.name := by
      have := List.find?_some hfind
      simpa [beq_iff_eq] using this
    by_cases hse : sources_equal p.1.source le₀.source = true
    · have hsrc : le₀.source = p.1.source := ((sources_equal_iff _ _).mp hse).symm
      have hU : (unchanged_extensions cfg lock).find? (fun le => le.name == p.1.name)
          = some le₀ := by
        show (lock.extensions.filter (fun le =>
            ! (calculate_diff cfg lock).removed.any (fun r => r.name == le.name) &&
            ! (calculate_diff cfg lock).source_changed.any
                (fun t => t.2.2.name == le.name))).find?
          (fun le => le.name == p.1.name) = some le₀
        apply find?_filter_of_found _ _ lock.extensions le₀ hfind
        simp only [Bool.and_eq_true, Bool.not_eq_true', List.any_eq_false]
        constructor
        · intro r hr
          simp only [beq_iff_eq]
          intro hrname
          simp only [calculate_diff, List.mem_filter, Bool.not_eq_true',
            List.any_eq_false] at hr
          have h2 := hr.2 p hp
          simp only [beq_iff_eq] at h2
          exact h2 (hle₀name.symm.trans hrname.symm)
        · intro t ht
          simp only [beq_iff_eq]
          intro htname
          obtain ⟨htD, htfind, hterr⟩ := mem_source_changed_elem cfg lock t ht
          have ht1name : t.2.2.name = t.1.name := by
            have := List.find?_some htfind
            simpa [beq_iff_eq] using this
          have hteq : (t.1, t.2.1) = p :=
            desired_name_inj cfg hnd htD hp (by rw [← ht1name, htname, hle₀name])
          have ht1p : t.1 = p.1 := congrArg Prod.fst hteq
          rw [ht1p] at htfind
          rw [hfind] at htfind
          injection htfind with hle
          rw [← hle] at hterr
          rw [ht1p] at hterr
          rw [hterr] at hse
          exact Bool.noConfusion hse
      refine ⟨le₀, ?_, hsrc⟩
      rw [hU]
      rfl
    · have hse2 : sources_equal p.1.source le₀.source = false := Bool.eq_false_iff.mpr hse
      have htsc : (p.1, p.2, le₀) ∈ (calculate_diff cfg lock).source_changed := by
        simp only [calculate_diff, List.mem_filterMap]
        refine ⟨p, hp, ?_⟩
        rw [hfind]
        simp [hse2]
      have hU : (unchanged_extensions cfg lock).find? (fun le => le.name == p.1.name)
          = none := by
        rw [List.find?_eq_none]
        intro x hx hpx
        simp only [unchanged_extensions, List.mem_filter, Bool.and_eq_true,
          Bool.not_eq_true', List.any_eq_false] at hx
        have hxname : x.name = p.1.name := by simpa [beq_iff_eq] using hpx
        have h2 := hx.2.2 (p.1, p.2, le₀) htsc
        simp only [beq_iff_eq] at h2
        exact h2 (by rw [hle₀name, hxname])
      have hA : ((calculate_diff cfg lock).added.map
          (fun q => fresh_locked env q.1 q.2)).find? (fun le => le.name == p.1.name)
          = none := by
        rw [List.find?_eq_none]
        intro x hx hpx
        obtain ⟨q, hq, rfl⟩ := List.mem_map.mp hx
        have hqD : q ∈ cfg.all_extensions := by
          simp only [calculate_diff, List.mem_filter] at hq
          exact hq.1
        have hqname : q.1.name = p.1.name := by
          simpa [fresh_locked, beq_iff_eq] using hpx
        obtain rfl := desired_name_inj cfg hnd hqD hp hqname
        simp [calculate_diff, List.mem_filter, hfind] at hq
      have hSsome : (((calculate_diff cfg lock).source_changed.map
          (fun t => fresh_locked env t.1 t.2.1)).find?
            (fun le => le.name == p.1.name)).isSome := by
        rw [List.find?_isSome]
        exact ⟨fresh_locked env p.1 p.2,
          List.mem_map.mpr ⟨(p.1, p.2, le₀), htsc, rfl⟩, by simp [fresh_locked]⟩
      obtain ⟨x, hx⟩ := Option.isSome_iff_exists.mp hSsome
      have hxmem := List.mem_of_find?_eq_some hx
      have hxpred := List.find?_some hx
      obtain ⟨t, htt, rfl⟩ := List.mem_map.mp hxmem
      obtain ⟨htD, htfind, hterr⟩ := mem_source_changed_elem cfg lock t htt
      have htname : t.1.name = p.1.name := by
        simpa [fresh_locked, beq_iff_eq] using hxpred
      have hteq : (t.1, t.2.1) = p := desired_name_inj cfg hnd htD hp htname
      refine ⟨fresh_locked env t.1 t.2.1, ?_, ?_⟩
      · rw [hU, hA, hx]
        rfl
      · show (fresh_locked env t.1 t.2.1).source = p.1.source
        simp only [fresh_locked]
        rw [show t.1 = p.1 from congrArg Prod.fst hteq]

/-- Every entry of the record a successful update run saves bears a
desired name. -/
theorem updated_record_names_desired (env : Env) (cfg : ExtensionsConfig) (lock : LockFile)
    (x : LockedExtension) (hx : x ∈ (updated_record env cfg lock).extensions) :
    ∃ p, p ∈ cfg.all_extensions ∧ p.1.name = x.name := by
  simp only [updated_record, List.mem_append] at hx
  rcases hx with (hx | hx) | hx
  · simp only [unchanged_extensions, List.mem_filter, Bool.and_eq_true, Bool.not_eq_true',
      List.any_eq_false] at hx
    obtain ⟨hxlock, hrem, hsc⟩ := hx
    by_contra hnone
    push_neg at hnone
    have hxrem : x ∈ (calculate_diff cfg lock).removed := by
      simp only [calculate_diff, List.mem_filter, Bool.not_eq_true', List.any_eq_false]
      refine ⟨hxlock, ?_⟩
      intro q hq
      simp only [beq_iff_eq]
      exact fun hqq => (hnone q hq) hqq
    have h2 := hrem x hxrem
    simp at h2
  · obtain ⟨q, hq, rfl⟩ := List.mem_map.mp hx
    have hqD : q ∈ cfg.all_extensions := by
      simp only [calculate_diff, List.mem_filter] at hq
      exact hq.1
    exact ⟨q, hqD, by simp [fresh_locked]⟩
  · obtain ⟨t, ht, rfl⟩ := List.mem_map.mp hx
    obtain ⟨htD, -, -⟩ := mem_source_changed_elem cfg lock t ht
    exact ⟨(t.1, t.2.1), htD, by simp [fresh_locked]⟩

/-- Reconciling the same desired set against the record a successful
update run of it saved yields an empty diff, for any previously observed
record, provided the desired names are pairwise distinct. -/
theorem diff_of_updated_record_empty (env : Env) (cfg : ExtensionsConfig) (lock : LockFile)
    (hnd : (desired_names cfg).Nodup) :
    calculate_diff cfg (updated_record env cfg lock) =
      { added := [], removed := [], source_changed := [] } := by
  refine installdiff_ext _ ?_ ?_ ?_
  · rw [List.eq_nil_iff_forall_not_mem]
    intro q hq
    have hn : q.1.name ∈ added_names cfg (updated_record env cfg lock) :=
      List.mem_map.mpr ⟨q, hq, rfl⟩
    rw [mem_added_names] at hn
    obtain ⟨⟨p, hp, hpname⟩, habs⟩ := hn
    obtain ⟨x, hfindx, hxsrc⟩ := find_in_updated_record env cfg lock hnd p hp
    have hxmem := List.mem_of_find?_eq_some hfindx
    have hxname : x.name = p.1.name := by
      have := List.find?_some hfindx
      simpa [beq_iff_eq] using this
    exact habs x hxmem (by rw [hxname, hpname])
  · rw [List.eq_nil_iff_forall_not_mem]
    intro le hle
    have hn : le.name ∈ removed_names cfg (updated_record env cfg lock) :=
      List.mem_map.mpr ⟨le, hle, rfl⟩
    rw [mem_removed_names] at hn
    obtain ⟨⟨le2, hle2, hle2name⟩, hall⟩ := hn
    obtain ⟨p, hp, hpname⟩ := updated_record_names_desired env cfg lock le2 hle2
    exact hall p hp (by rw [hpname, hle2name])
  · rw [List.eq_nil_iff_forall_not_mem]
    intro t ht
    have hn : t.2.2.name ∈ source_changed_names cfg (updated_record env cfg lock) :=
      List.mem_map.mpr ⟨t, ht, rfl⟩
    rw [mem_source_changed_names] at hn
    obtain ⟨p, hp, hpname, le, hfindle, hseF⟩ := hn
    obtain ⟨x, hfindx, hxsrc⟩ := find_in_updated_record env cfg lock hnd p hp
    rw [hfindle] at hfindx
    injection hfindx with hlex
    rw [← hlex] at hxsrc
    have hT : sources_equal p.1.source le.source = true :=
      (sources_equal_iff _ _).mpr hxsrc.symm
    rw [hT] at hseF
    exact Bool.noConfusion hseF

/-- C9 as amended: reconciling a desired set whose names are pairwise
distinct (across plugins and themes together) against the record a
successful reconciliation of that same set produced — whether by the
fresh-install path or by an update run against any previously observed
record — yields empty added, removed and source-changed sets; source
equality is reflexive, so unchanged sources never register as
changed. -/
theorem reconcile_idempotent (env : Env) (config : Config) (cfg : ExtensionsConfig)
    (lock : LockFile) (w : World) (rec : LockFile)
    (hnd : (desired_names cfg).Nodup) :
    ((install_all_extensions env config cfg w).1 = .ok rec →
      calculate_diff cfg rec = { added := [], removed := [], source_changed := [] }) ∧
    ((update_installation env config cfg lock w).1 = .ok rec →
      calculate_diff cfg rec = { added := [], removed := [], source_changed := [] }) := by
  constructor
  · intro hok
    have hrec := install_all_extensions_ok env config cfg w rec hok
    subst hrec
    have hnd2 : (cfg.all_extensions.map (fun q => q.1.name)).Nodup := hnd
    unfold calculate_diff fresh_lock
    simp only [InstallDiff.mk.injEq]
    refine ⟨?_, ?_, ?_⟩
    · rw [List.filter_eq_nil_iff]
      intro p hp
      rw [find?_fresh_self env cfg.all_extensions p hp hnd2]
      simp
    · rw [List.filter_eq_nil_iff]
      intro le hle
      obtain ⟨q, hq, rfl⟩ := List.mem_map.mp hle
      simp only [Bool.not_eq_true', Bool.not_eq_false]
      exact List.any_eq_true.mpr ⟨q, hq, by simp [fresh_locked]⟩
    · rw [List.filterMap_eq_nil_iff]
      intro p hp
      rw [find?_fresh_self env cfg.all_extensions p hp hnd2]
      simp [fresh_locked, sources_equal_refl]
  · intro hok
    have hrec := update_installation_ok_record env config cfg lock w rec hok
    subst hrec
    exact diff_of_updated_record_empty env cfg lock hnd

/-- C9 witness: the amended idempotence at a concrete distinct-name
desired set, after a concrete successful fresh install and after a
concrete successful update run against a non-trivial prior record. -/
theorem reconcile_idempotent_witness :
    calculate_diff cfg1 (fresh_lock env_ok cfg1) =
      { added := [], removed := [], source_changed := [] } ∧
    calculate_diff cfg1
        ((update_installation env_ok config0 cfg1 lock5 world0).1.toOption.getD lock_empty) =
      { added := [], removed := [], source_changed := [] } := by
  constructor
  · exact (reconcile_idempotent env_ok config0 cfg1 lock_empty world0
      (fresh_lock env_ok cfg1) (by decide)).1 (by rfl)
  · exact (reconcile_idempotent env_ok config0 cfg1 lock5 world0
      ((update_installation env_ok config0 cfg1 lock5 world0).1.toOption.getD lock_empty)
      (by decide)).2 (by rfl)

/-- C9 counterexample: a desired set in which a plugin and a theme share
a name but differ in source is successfully reconciled, yet the diff of
the same set against the record that run produced reports a
source-changed entry — reconciliation is not idempotent for every
desired set. -/
theorem reconcile_idempotent_counterexample :
    (install_all_extensions env_ok config0 cfg9 world0).1 = .ok (fresh_lock env_ok cfg9) ∧
    (calculate_diff cfg9 (fresh_lock env_ok cfg9)).source_changed ≠ [] := by
  constructor
  · rfl
  · decide

/-! ## Claim C1: failure aborts the run before the record is saved -/

/-- Installing one extension never touches the file store. -/
theorem install_extension_fs (env : Env) (config : Config) (e : Extension)
    (t : ExtensionType) (w : World) :
    (install_extension env config e t w).2.fs = w.fs := by
  unfold install_extension
  cases hc : env.clone_result e.name with
  | error s => simp
  | ok h =>
    cases t with
    | plugin =>
      cases hh : env.hook_result e.name with
      | error s => simp
      | ok u => simp
    | theme => simp

/-- Uninstalling one extension never touches the file store. -/
theorem uninstall_extension_fs (env : Env) (config : Config) (le : LockedExtension)
    (w : World) :
    (uninstall_extension env config le w).2.fs = w.fs := by
  unfold uninstall_extension
  by_cases hd : dest_dir config le.extension_type le.name ∈ w.dirs
  · cases hr : env.remove_result le.name with
    | error s => simp [hd]
    | ok u => simp [hd]
  · simp [hd]

/-- The install loop never touches the file store. -/
theorem install_added_fs (env : Env) (config : Config) :
    ∀ (l : List (Extension × ExtensionType)) (w : World),
      (install_added env config l w).2.fs = w.fs
  | [], _ => rfl
  | (e, t) :: rest, w => by
    unfold install_added
    split
    · rename_i s wi heq
      have h2 := install_extension_fs env config e t w
      rw [heq] at h2
      exact h2
    · rename_i h wi heq
      have h2 := install_extension_fs env config e t w
      rw [heq] at h2
      split
      · rename_i s2 wr heq2
        have h1 := install_added_fs env config rest wi
        rw [heq2] at h1
        exact h1.trans h2
      · rename_i ls wr heq2
        have h1 := install_added_fs env config rest wi
        rw [heq2] at h1
        exact h1.trans h2

/-- The source-changed loop never touches the file store. -/
theorem install_source_changed_fs (env : Env) (config : Config) :
    ∀ (l : List (Extension × ExtensionType × LockedExtension)) (w : World),
      (install_source_changed env config l w).2.fs = w.fs
  | [], _ => rfl
  | (e, t, old) :: rest, w => by
    unfold install_source_changed
    split
    · rename_i s wu heq
      have h2 := uninstall_extension_fs env config old w
      rw [heq] at h2
      exact h2
    · rename_i u wu heq
      have h2 := uninstall_extension_fs env config old w
      rw [heq] at h2
      split
      · rename_i s2 wi heq2
        have h1 := install_extension_fs env config e t wu
        rw [heq2] at h1
        exact h1.trans h2
      · rename_i h wi heq2
        have h1 := install_extension_fs env config e t wu
        rw [heq2] at h1
        split
        · rename_i s3 wr heq3
          have h0 := install_source_changed_fs env config rest wi
          rw [heq3] at h0
          exact (h0.trans h1).trans h2
        · rename_i ls wr heq3
          have h0 := install_source_changed_fs env config rest wi
          rw [heq3] at h0
          exact (h0.trans h1).trans h2

/-- The removal loop never touches the file store. -/
theorem uninstall_removed_fs (env : Env) (config : Config) :
    ∀ (l : List LockedExtension) (w : World),
      (uninstall_removed env config l w).2.fs = w.fs
  | [], _ => rfl
  | le :: rest, w => by
    unfold uninstall_removed
    split
    · rename_i s wu heq
      have h2 := uninstall_extension_fs env config le w
      rw [heq] at h2
      exact h2
    · rename_i u wu heq
      have h2 := uninstall_extension_fs env config le w
      rw [heq] at h2
      exact (uninstall_removed_fs env config rest wu).trans h2

/-- C1: over a whole reconciliation run — updating an existing
installation or installing afresh — the lock file on disk is exactly
what it was before the run whenever any single install, update or
removal failed, and it holds exactly the serialized new record when the
run succeeded: the record is saved only at the very end of a fully
successful run. -/
theorem run_no_partial_commit (env : Env) (config : Config) (cfg : ExtensionsConfig)
    (lock : LockFile) (w : World) :
    (readFile (update_installation env config cfg lock w).2.fs config.lock_file_path =
      match (update_installation env config cfg lock w).1 with
      | .error _ => readFile w.fs config.lock_file_path
      | .ok rec => some (serialize_lock_file rec)) ∧
    (readFile (install_all_extensions env config cfg w).2.fs config.lock_file_path =
      match (install_all_extensions env config cfg w).1 with
      | .error _ => readFile w.fs config.lock_file_path
      | .ok rec => some (serialize_lock_file rec)) := by
  constructor
  · cases hrun : update_installation env config cfg lock w with
    | mk res w2 =>
      simp only [update_installation] at hrun
      split at hrun
      · rename_i s1 w1 heq
        injection hrun with hres hw
        subst hres
        subst hw
        have hfs := install_added_fs env config (calculate_diff cfg lock).added w
        rw [heq] at hfs
        rw [show w1.fs = w.fs from hfs]
      · rename_i newL w1 heq
        have hfsA := install_added_fs env config (calculate_diff cfg lock).added w
        rw [heq] at hfsA
        split at hrun
        · rename_i s2 wB heq2
          injection hrun with hres hw
          subst hres
          subst hw
          have hfsB := install_source_changed_fs env config
            (calculate_diff cfg lock).source_changed w1
          rw [heq2] at hfsB
          rw [show wB.fs = w.fs from hfsB.trans hfsA]
        · rename_i updL wB heq2
          have hfsB := install_source_changed_fs env config
            (calculate_diff cfg lock).source_changed w1
          rw [heq2] at hfsB
          split at hrun
          · rename_i s3 wC heq3
            injection hrun with hres hw
            subst hres
            subst hw
            have hfsC := uninstall_removed_fs env config (calculate_diff cfg lock).removed wB
            rw [heq3] at hfsC
            rw [show wC.fs = w.fs from (hfsC.trans hfsB).trans hfsA]
          · rename_i u wC heq3
            split at hrun
            · rename_i s4 heq4
              rw [save_lock_file_spec] at heq4
              exact absurd heq4 (by simp)
            · rename_i fs2 heq4
              rw [save_lock_file_spec] at heq4
              injection hrun with hres hw
              subst hres
              subst hw
              simp only [Except.ok.injEq] at heq4
              simp [← heq4, readFile_writeFile_self]
  · cases hrun : install_all_extensions env config cfg w with
    | mk res w2 =>
      simp only [install_all_extensions] at hrun
      split at hrun
      · rename_i s1 w1 heq
        injection hrun with hres hw
        subst hres
        subst hw
        have hfs := install_added_fs env config cfg.all_extensions w
        rw [heq] at hfs
        rw [show w1.fs = w.fs from hfs]
      · rename_i locked w1 heq
        split at hrun
        · rename_i s2 heq2
          rw [save_lock_file_spec] at heq2
          exact absurd heq2 (by simp)
        · rename_i fs2 heq2
          rw [save_lock_file_spec] at heq2
          injection hrun with hres hw
          subst hres
          subst hw
          simp only [Except.ok.injEq] at heq2
          simp [← heq2, readFile_writeFile_self]

/-! ## Claim C7: a record entry with a missing directory -/

/-- A successful reconciliation run saves a record whose entries are the
carried unchanged entries followed by the new and updated ones. -/
theorem update_installation_ok_shape (env : Env) (config : Config) (cfg : ExtensionsConfig)
    (lock : LockFile) (w : World) (rec : LockFile)
    (hok : (update_installation env config cfg lock w).1 = .ok rec) :
    ∃ nl ul, rec.extensions = unchanged_extensions cfg lock ++ nl ++ ul := by
  cases hrun : update_installation env config cfg lock w with
  | mk res w2 =>
    rw [hrun] at hok
    have hok2 : res = Except.ok rec := hok
    subst hok2
    simp only [update_installation] at hrun
    split at hrun
    · rename_i s1 w1 heq
      injection hrun with h1 h2
      exact Except.noConfusion h1
    · rename_i newL w1 heq
      split at hrun
      · rename_i s2 wB heq2
        injection hrun with h1 h2
        exact Except.noConfusion h1
      · rename_i updL wB heq2
        split at hrun
        · rename_i s3 wC heq3
          injection hrun with h1 h2
          exact Except.noConfusion h1
        · rename_i u wC heq3
          split at hrun
          · rename_i s4 heq4
            rw [save_lock_file_spec] at heq4
            exact absurd heq4 (by simp)
          · rename_i fs2 heq4
            injection hrun with h1 h2
            injection h1 with h1
            exact ⟨newL, updL, by rw [← h1]⟩

/-- C7 as amended: the reconciler never consults the filesystem when
classifying entries — an observed entry whose name is neither removed
nor source-changed is carried verbatim into the saved record whatever
directories exist — and the update command's per-entry path reacts to a
missing directory by failing with an extension-not-found error, not by
reinstalling. -/
theorem missing_dir_entry_carried (env : Env) (config : Config) (cfg : ExtensionsConfig)
    (lock : LockFile) (w : World) (le : LockedExtension) (rec : LockFile)
    (hmem : le ∈ lock.extensions)
    (hrm : le.name ∉ removed_names cfg lock)
    (hsc : le.name ∉ source_changed_names cfg lock)
    (hok : (update_installation env config cfg lock w).1 = .ok rec) :
    le ∈ rec.extensions ∧
    (∀ w2 : World, dest_dir config le.extension_type le.name ∉ w2.dirs →
      update_extension_and_get_hash env config le w2 =
        (.error ("Extension directory not found: " ++ le.name), w2)) := by
  constructor
  · have hcarried : le ∈ unchanged_extensions cfg lock := by
      refine List.mem_filter.mpr ⟨hmem, ?_⟩
      have hr : (calculate_diff cfg lock).removed.any (fun r => r.name == le.name) = false := by
        rw [List.any_eq_false]
        intro r hrr
        simp only [beq_iff_eq]
        intro hcontra
        exact hrm (List.mem_map.mpr ⟨r, hrr, hcontra⟩)
      have hs : (calculate_diff cfg lock).source_changed.any
          (fun t => t.2.2.name == le.name) = false := by
        rw [List.any_eq_false]
        intro t htt
        simp only [beq_iff_eq]
        intro hcontra
        exact hsc (List.mem_map.mpr ⟨t, htt, hcontra⟩)
      simp [hr, hs]
    obtain ⟨nl, ul, hshape⟩ := update_installation_ok_shape env config cfg lock w rec hok
    rw [hshape]
    exact List.mem_append_left _ (List.mem_append_left _ hcarried)
  · intro w2 hdir
    simp [update_extension_and_get_hash, hdir]

/-- C7 witness: the amended behavior at a concrete entry and record. -/
theorem missing_dir_entry_carried_witness :
    le7 ∈ lock7.extensions ∧
    (le7 ∈ ((update_installation env_fail config0 cfg7 lock7 world0).1.toOption.getD
        lock_empty).extensions) := by
  refine ⟨by decide, ?_⟩
  have h := missing_dir_entry_carried env_fail config0 cfg7 lock7 world0 le7
    ((update_installation env_fail config0 cfg7 lock7 world0).1.toOption.getD lock_empty)
    (by decide) (by decide) (by decide) (by rfl)
  exact h.1

/-- C7 counterexample: with the entry's on-disk directory absent (the
world holds no directories at all), the reconciliation run still
succeeds, carries the entry verbatim (same recorded commit and
timestamp), attempts no install whatsoever — the clone oracle here fails
every call, so any attempted reinstall would have aborted the run — and
the update command's path merely errors for that entry. -/
theorem missing_dir_counterexample :
    world0.dirs = [] ∧
    (update_installation env_fail config0 cfg7 lock7 world0).1 = .ok lock7 ∧
    (update_installation env_fail config0 cfg7 lock7 world0).2.install_log = [] ∧
    (update_installation env_fail config0 cfg7 lock7 world0).2.dirs = [] ∧
    update_extension_and_get_hash env_fail config0 le7 world0 =
      (.error "Extension directory not found: a", world0) := by
  exact ⟨rfl, rfl, rfl, rfl, rfl⟩

/-! ## Claim C4: reference resolution order of the native strategy -/

/-- C4 evaluation at the divergence-relevant repositories: with no local
branch `x` but both a remote-tracking branch `origin/x` and a tag `x`,
the native resolver materializes a local branch at the remote-tracking
commit and sets HEAD to it, rather than detaching at the tag; and with
both a local branch and a tag named `y`, the local branch is selected. -/
theorem checkout_reference_order_eval :
    checkout_reference repo4 "x" =
      .ok { localBranches := [("x", "c1")], remoteBranches := [("origin/x", "c1")],
            tags := [("x", "c2")], commits := ["c1", "c2"], head := .branch "x" } ∧
    checkout_reference repo4b "y" =
      .ok { localBranches := [("y", "c3")], remoteBranches := [], tags := [("y", "c4")],
            commits := ["c3", "c4"], head := .branch "y" } :=
  ⟨rfl, rfl⟩

/-! ## Claim C8: exhausted resolution fails, with no fallback -/

/-- Reference resolution that matches nothing yields exactly the
reference-not-found error. -/
theorem checkout_reference_none (repo : Repo) (reference : String)
    (h1 : lookupRef repo.localBranches reference = none)
    (h2 : lookupRef repo.remoteBranches ("origin/" ++ reference) = none)
    (h3 : lookupRef repo.tags reference = none)
    (h4 : reference ∉ repo.commits) :
    checkout_reference repo reference =
      .error ("Reference " ++ reference ++ " not found") := by
  simp [checkout_reference, h1, h2, h3, h4]

/-- C8: when a requested reference matches no local branch, no
remote-tracking branch, no tag and no commit id, resolution fails with
the reference-not-found error, and both the update and the clone
operations of the native strategy propagate that failure — no commit id
is returned and no fallback to the default branch happens. -/
theorem reference_not_found_fails (repo : Repo) (reference : String)
    (h1 : lookupRef repo.localBranches reference = none)
    (h2 : lookupRef repo.remoteBranches ("origin/" ++ reference) = none)
    (h3 : lookupRef repo.tags reference = none)
    (h4 : reference ∉ repo.commits) :
    checkout_reference repo reference =
      .error ("Reference " ++ reference ++ " not found") ∧
    (∀ (src : Source) (fetched : List (String × String)) (nc : List String),
      src.reference = some reference →
      lookupRef fetched ("origin/" ++ reference) = none →
      reference ∉ nc →
      update_repository_with_git2 src repo fetched nc =
        .error ("Reference " ++ reference ++ " not found")) ∧
    (∀ src : Source, src.reference = some reference →
      clone_repository_with_git2 src repo =
        .error ("Reference " ++ reference ++ " not found")) := by
  refine ⟨checkout_reference_none repo reference h1 h2 h3 h4, ?_, ?_⟩
  · intro src fetched nc hsrc hf hnc
    have hchk := checkout_reference_none (apply_fetch repo fetched nc) reference
      (by simpa [apply_fetch] using h1)
      (by simpa [apply_fetch] using hf)
      (by simpa [apply_fetch] using h3)
      (by simp [apply_fetch, List.mem_append, h4, hnc])
    simp only [update_repository_with_git2, hsrc]
    rw [hchk]
  · intro src hsrc
    have hchk := checkout_reference_none repo reference h1 h2 h3 h4
    simp only [clone_repository_with_git2, hsrc]
    rw [hchk]

/-- C8 witness: the failure at a concrete repository and reference. -/
theorem reference_not_found_fails_witness :
    checkout_reference repo8 "nope" = .error "Reference nope not found" ∧
    update_repository_with_git2 src8 repo8 [("origin/main", "m2")] ["m2"] =
      .error "Reference nope not found" := by
  have h := reference_not_found_fails repo8 "nope" rfl rfl rfl (by decide)
  exact ⟨h.1, h.2.1 src8 [("origin/main", "m2")] ["m2"] rfl rfl (by decide)⟩

/-! ## Claim C6: the update path with no reference -/

/-- C6 as amended: when the source carries no reference and the
destination exists, the native update path fetches and then merely
re-checks-out the commit already at HEAD — the commit id it returns is
the pre-update HEAD commit, unaffected by what the fetch brought in —
and the subprocess fallback hard-resets to `origin/main`, then
`origin/master`, failing when neither remote-tracking branch exists. -/
theorem update_no_reference_no_fast_forward (src : Source) (repo : Repo)
    (fetched : List (String × String)) (nc : List String) (b c : String)
    (h0 : src.reference = none) (hh : repo.head = .branch b)
    (hb : lookupRef repo.localBranches b = some c) :
    update_repository_with_git2 src repo fetched nc =
      .ok (apply_fetch repo fetched nc, c) ∧
    (∀ repo2 : Repo, lookupRef repo2.remoteBranches "origin/main" = none →
      lookupRef repo2.remoteBranches "origin/master" = none →
      reset_to_default_branch_with_cli repo2 =
        .error "Failed to reset to default branch") := by
  constructor
  · simp [update_repository_with_git2, h0, checkout_default_branch, apply_fetch, hh, hb,
      get_current_commit_hash]
  · intro repo2 hm hms
    simp [reset_to_default_branch_with_cli, hm, hms]

/-- C6 witness: the amended behavior at a concrete repository whose
default branch is `trunk`. -/
theorem update_no_reference_no_fast_forward_witness :
    update_repository_with_git2 src7 repo6 fetched6 ["bbb"] =
      .ok (apply_fetch repo6 fetched6 ["bbb"], "aaa") ∧
    (∀ repo2 : Repo, lookupRef repo2.remoteBranches "origin/main" = none →
      lookupRef repo2.remoteBranches "origin/master" = none →
      reset_to_default_branch_with_cli repo2 =
        .error "Failed to reset to default branch") :=
  update_no_reference_no_fast_forward src7 repo6 fetched6 ["bbb"] "trunk" "aaa" rfl rfl rfl

/-- C6 counterexample: the remote default branch `trunk` has advanced to
`bbb`, yet the no-reference native update reports the stale pre-update
HEAD commit `aaa` — it does not fast-forward to the default branch's
latest fetched commit — and the subprocess reset path fails outright
because the default branch is named neither `main` nor `master`. -/
theorem update_no_reference_counterexample :
    update_repository_with_git2 src7 repo6 fetched6 ["bbb"] =
      .ok (apply_fetch repo6 fetched6 ["bbb"], "aaa") ∧
    lookupRef (apply_fetch repo6 fetched6 ["bbb"]).remoteBranches "origin/trunk" = some "bbb" ∧
    "aaa" ≠ "bbb" ∧
    reset_to_default_branch_with_cli (apply_fetch repo6 fetched6 ["bbb"]) =
      .error "Failed to reset to default branch" := by
  refine ⟨rfl, rfl, by decide, rfl⟩

end Rexer
